import Mathlib

/-!
Verification of the RiskLens frontend (Next.js/TypeScript) against its
natural-language specification.

The repository under verification ships the React/TypeScript frontend of a
portfolio risk-analysis tool.  Numeric values are JavaScript numbers; in this
development finite numbers are embedded as rationals (`ℚ`), and the non-finite
values `NaN`, `Infinity`, `-Infinity` are represented explicitly by the
`JSNum` type where a function's behaviour on them matters.

The Django analytics backend (scenario engine, optimizer, performance module,
output sanitization) is not part of the repository sources; where a claim
depends on it, the corresponding definition is modelled from the spec and its
doc comment says so.
-/

namespace RiskLens

/-- A JavaScript number: either a finite value (embedded as a rational) or one
of the non-finite values `NaN`, `Infinity`, `-Infinity`. -/
inductive JSNum where
  | fin (q : ℚ)
  | posInf
  | negInf
  | nan
deriving DecidableEq, Repr

/-- `Number.isFinite` from JavaScript. -/
def JSNum.isFinite : JSNum → Bool
  | .fin _ => true
  | _ => false

/-! ### Scenario module (claim C1)

`testScenario` lives in the backend; the frontend `ScenarioTester.tsx`
only fetches and renders the returned `ScenarioImpact`. -/

/-- The numeric fields of `ScenarioImpact`
(`src/frontend/components/ScenarioTester.tsx`, lines 15-27). -/
structure ScenarioImpact where
  market_shock_pct : ℚ
  original_value : ℚ
  projected_value : ℚ
  projected_loss : ℚ
  loss_pct : ℚ
deriving DecidableEq, Repr

/-- Modelled from the spec: the backend endpoint
`testScenario(scenarioId, currentValue)` (the Scenario Module of §4.8 is not
in `src/`; only its caller `ScenarioTester.tsx` is).  Per the spec, applying
a scenario with shock factor `shock` to value `v` yields
`projected_value = v * (1 + shock)`, `projected_loss = v - projected_value`
and `loss_pct = shock`. -/
def testScenario (v shock : ℚ) : ScenarioImpact where
  market_shock_pct := shock
  original_value := v
  projected_value := v * (1 + shock)
  projected_loss := v - v * (1 + shock)
  loss_pct := shock

/-- The numeric content of `formatPercent` (`src/frontend/lib/utils.ts`,
line 18): the number rendered before the `%` sign is `value * 100`
(`toFixed` only fixes the printed precision). -/
def formatPercentValue (value : ℚ) : ℚ := value * 100

/-- The numeric value displayed by `ScenarioTester.tsx` line 164,
`formatPercent(impact.loss_pct / 100)`: the percent figure shown next to
the projected loss. -/
def displayedLossPct (impact : ScenarioImpact) : ℚ :=
  formatPercentValue (impact.loss_pct / 100)

/-- C1: the scenario impact satisfies the three stated identities, and the
value the frontend consumes and displays for `loss_pct` equals the scenario's
`market_shock_pct` (the `/ 100` at the call site and the `* 100` inside
`formatPercent` cancel). -/
theorem testScenario_impact (v shock : ℚ) :
    (testScenario v shock).projected_value = v * (1 + shock) ∧
    (testScenario v shock).projected_loss =
      v - (testScenario v shock).projected_value ∧
    (testScenario v shock).loss_pct = shock ∧
    displayedLossPct (testScenario v shock) =
      (testScenario v shock).market_shock_pct := by
  refine ⟨rfl, rfl, rfl, ?_⟩
  simp [displayedLossPct, formatPercentValue, testScenario]

/-! ### Correlation heatmap (claim C10)

`src/unnamed/part_002` (`CorrelationHeatmap.tsx`). -/

/-- `getCorrelationColor` (`src/unnamed/part_002`, lines 9-17). -/
def getCorrelationColor (correlation : ℚ) : String :=
  if correlation > 7/10 then "bg-red-500"
  else if correlation > 3/10 then "bg-orange-400"
  else if correlation > 0 then "bg-yellow-300"
  else if correlation > -(3/10) then "bg-blue-300"
  else if correlation > -(7/10) then "bg-blue-400"
  else "bg-blue-500"

/-- The string key of the lookup map: the template literal built at
`src/unnamed/part_002` lines 30 and 65 — ticker1, a hyphen, ticker2,
concatenated into one string.  Hyphens inside tickers are not escaped, so
distinct pairs can share a key (e.g. ("A", "A-A") and ("A-A", "A") both
key as "A-A-A"). -/
def corrKey (t1 t2 : String) : String :=
  t1 ++ "-" ++ t2

/-- The lookup map built in `CorrelationHeatmap` (`src/unnamed/part_002`,
lines 28-31): each entry is `set` under its concatenated string key, in
order, so a later entry whose key is the same string overwrites an earlier
one; `get` on a cell's key therefore returns the last entry with a
matching key string. -/
def corrMapGet (correlations : List (String × String × ℚ))
    (t1 t2 : String) : Option ℚ :=
  (correlations.reverse.find? (fun e => corrKey e.1 e.2.1 == corrKey t1 t2)).map
    (fun e => e.2.2)

/-- The correlation rendered for cell `(t1, t2)` (`src/unnamed/part_002`,
line 65): the looked-up value with `0` substituted when the key is absent
(the source's falsy-default also maps a stored `0` to `0`, which agrees
with `getD`). -/
def cellCorrelation (correlations : List (String × String × ℚ))
    (t1 t2 : String) : ℚ :=
  (corrMapGet correlations t1 t2).getD 0

/-- Counterexample to C10 as stated: with the single stored entry
("A", "A-A", 1/2), the cell ("A-A", "A") holds a pair that is present only
in the reversed order — which the claim asserts renders 0 — yet both the
entry and the cell build the same string key "A-A-A", so the program finds
the entry and renders 1/2, not 0. -/
theorem correlationHeatmap_collision_cex :
    cellCorrelation [("A", "A-A", 1/2)] "A-A" "A" = 1/2 ∧
    (1 : ℚ)/2 ≠ 0 ∧
    corrKey "A" "A-A" = corrKey "A-A" "A" ∧
    (∀ e ∈ [("A", "A-A", (1:ℚ)/2)], ¬(e.1 = "A-A" ∧ e.2.1 = "A")) :=
  ⟨rfl, by norm_num, rfl, by decide⟩

theorem append_dash_inj : ∀ (xs us ys vs : List Char),
    '-' ∉ xs → '-' ∉ us → xs ++ '-' :: ys = us ++ '-' :: vs →
    xs = us ∧ ys = vs := by
  intro xs
  induction xs with
  | nil =>
    intro us ys vs _ hu h
    cases us with
    | nil => simpa using h
    | cons u us' =>
      simp only [List.nil_append, List.cons_append, List.cons.injEq] at h
      exact absurd (by rw [h.1]; exact List.mem_cons_self u us') hu
  | cons x xs' ih =>
    intro us ys vs hx hu h
    cases us with
    | nil =>
      simp only [List.cons_append, List.nil_append, List.cons.injEq] at h
      exact absurd (by rw [← h.1]; exact List.mem_cons_self x xs') hx
    | cons u us' =>
      simp only [List.cons_append, List.cons.injEq] at h
      obtain ⟨hxu, h'⟩ := h
      have hx' : '-' ∉ xs' := fun hm => hx (List.mem_cons_of_mem x hm)
      have hu' : '-' ∉ us' := fun hm => hu (List.mem_cons_of_mem u hm)
      obtain ⟨h1, h2⟩ := ih us' ys vs hx' hu' h'
      exact ⟨by rw [hxu, h1], h2⟩

theorem corrKey_data (t1 t2 : String) :
    (corrKey t1 t2).data = t1.data ++ '-' :: t2.data := by
  unfold corrKey
  rw [String.data_append, String.data_append, List.append_assoc]
  rfl

theorem corrKey_inj (a b c d : String)
    (ha : '-' ∉ a.data) (hc : '-' ∉ c.data)
    (h : corrKey a b = corrKey c d) : a = c ∧ b = d := by
  have hdata : a.data ++ '-' :: b.data = c.data ++ '-' :: d.data := by
    rw [← corrKey_data, ← corrKey_data, h]
  obtain ⟨h1, h2⟩ := append_dash_inj a.data c.data b.data d.data ha hc hdata
  exact ⟨String.ext h1, String.ext h2⟩

/-- C10 amended: the lookup map is keyed only by the concatenated string
"ticker1-ticker2", so any cell whose key string matches no stored entry's
key renders 0; when neither the stored tickers nor the cell's first ticker
contain a hyphen, the key determines the pair, so a pair present only in
the reversed order and a diagonal pair not listed render 0 — but
hyphenated tickers can collide on the key and then the stored value is
rendered instead; `getCorrelationColor` maps every correlation `≤ 0`,
including `0` itself, to one of the three blue shades. -/
theorem correlationHeatmap_amended :
    (∀ (correlations : List (String × String × ℚ)) (t1 t2 : String),
      (∀ e ∈ correlations, ¬(corrKey e.1 e.2.1 = corrKey t1 t2)) →
      cellCorrelation correlations t1 t2 = 0) ∧
    (∀ (correlations : List (String × String × ℚ)) (t1 t2 : String),
      (∀ e ∈ correlations, '-' ∉ e.1.data) → '-' ∉ t1.data →
      (∀ e ∈ correlations, ¬(e.1 = t1 ∧ e.2.1 = t2)) →
      cellCorrelation correlations t1 t2 = 0) ∧
    (∀ c : ℚ, c ≤ 0 →
      getCorrelationColor c = "bg-blue-300" ∨
      getCorrelationColor c = "bg-blue-400" ∨
      getCorrelationColor c = "bg-blue-500") ∧
    getCorrelationColor 0 = "bg-blue-300" := by
  have hkey : ∀ (correlations : List (String × String × ℚ)) (t1 t2 : String),
      (∀ e ∈ correlations, ¬(corrKey e.1 e.2.1 = corrKey t1 t2)) →
      cellCorrelation correlations t1 t2 = 0 := by
    intro correlations t1 t2 habsent
    have hnone : corrMapGet correlations t1 t2 = none := by
      unfold corrMapGet
      rw [List.find?_eq_none.mpr, Option.map_none']
      intro e he
      have := habsent e (List.mem_reverse.mp he)
      simpa using this
    simp [cellCorrelation, hnone]
  refine ⟨hkey, ?_, ?_, by norm_num [getCorrelationColor]⟩
  · intro correlations t1 t2 hfree ht1 habsent
    refine hkey correlations t1 t2 ?_
    intro e he hk
    obtain ⟨h1, h2⟩ := corrKey_inj e.1 e.2.1 t1 t2 (hfree e he) ht1 hk
    exact habsent e he ⟨h1, h2⟩
  · intro c hc
    have h1 : ¬(c > 7/10) := by linarith
    have h2 : ¬(c > 3/10) := by linarith
    have h3 : ¬(c > 0) := by linarith
    unfold getCorrelationColor
    rw [if_neg h1, if_neg h2, if_neg h3]
    by_cases h4 : c > -(3/10)
    · rw [if_pos h4]; left; rfl
    · rw [if_neg h4]
      by_cases h5 : c > -(7/10)
      · rw [if_pos h5]; right; left; rfl
      · rw [if_neg h5]; right; right; rfl

/-- Witness for the amended C10 at concrete inputs: with the single entry
("AAPL", "MSFT", 1/2), the reversed-order cell ("MSFT", "AAPL") renders 0
by key absence, the unlisted diagonal cell ("AAPL", "AAPL") renders 0 by
the hyphen-free clause, and the correlation -1/2 gets a blue shade. -/
theorem correlationHeatmap_amended_witness :
    cellCorrelation [("AAPL", "MSFT", 1/2)] "MSFT" "AAPL" = 0 ∧
    cellCorrelation [("AAPL", "MSFT", 1/2)] "AAPL" "AAPL" = 0 ∧
    (getCorrelationColor (-(1/2)) = "bg-blue-300" ∨
      getCorrelationColor (-(1/2)) = "bg-blue-400" ∨
      getCorrelationColor (-(1/2)) = "bg-blue-500") :=
  ⟨correlationHeatmap_amended.1 [("AAPL", "MSFT", 1/2)] "MSFT" "AAPL"
      (by decide),
    correlationHeatmap_amended.2.1 [("AAPL", "MSFT", 1/2)] "AAPL" "AAPL"
      (by decide) (by decide) (by decide),
    correlationHeatmap_amended.2.2.1 (-(1/2)) (by norm_num)⟩

/-! ### Risk-contribution ranking (claim C3)

`src/frontend/components/RiskCharts.tsx` sorts the positions of a
`RiskOutput` by `risk_contribution_pct` descending; the Explanation
Generator (backend, §4.10) takes the top-k of the same ranking as
`top_drivers`. -/

/-- `PositionDetail` (`src/frontend/lib/types.ts`, lines 96-110). -/
structure PositionDetail where
  ticker : String
  quantity : ℚ
  current_price : ℚ
  value : ℚ
  weight : ℚ
  volatility : ℚ
  risk_contribution_pct : ℚ
  marginal_risk : ℚ
  avg_price : Option ℚ := none
  cost_basis : Option ℚ := none
  unrealized_pl : Option ℚ := none
  unrealized_pl_pct : Option ℚ := none
  purchase_date : Option String := none
deriving DecidableEq, Repr

/-- The bar-chart ranking of `RiskCharts` (`src/frontend/components/
RiskCharts.tsx`, lines 23-28): `[...data.positions].sort((a, b) =>
b.risk_contribution_pct - a.risk_contribution_pct)`.  The JS comparator
orders `a` before `b` exactly when `b.risk_contribution_pct ≤
a.risk_contribution_pct`; `Array.prototype.sort` is a stable sort, embedded
here as a stable merge sort on that relation. -/
def sortByRiskDesc (positions : List PositionDetail) : List PositionDetail :=
  positions.mergeSort
    (fun a b => decide (b.risk_contribution_pct ≤ a.risk_contribution_pct))

/-- Modelled from the spec: the Explanation Generator (§4.10) is in the
backend, not in `src/`; per the spec it "ranks positions by
risk_contribution_pct descending, emits top-k (e.g., 3) as top_drivers". -/
def topDrivers (k : ℕ) (positions : List PositionDetail) :
    List PositionDetail :=
  (sortByRiskDesc positions).take k

/-- C3: the ranking is a permutation of the input positions that is sorted
in non-increasing order of `risk_contribution_pct`, and `top_drivers` is its
k-element prefix. -/
theorem riskRanking_perm_sorted (positions : List PositionDetail) (k : ℕ) :
    (sortByRiskDesc positions).Perm positions ∧
    (sortByRiskDesc positions).Pairwise
      (fun a b => b.risk_contribution_pct ≤ a.risk_contribution_pct) ∧
    topDrivers k positions = (sortByRiskDesc positions).take k := by
  refine ⟨List.mergeSort_perm positions _, ?_, rfl⟩
  have h := @List.sorted_mergeSort PositionDetail
    (fun a b : PositionDetail =>
      decide (b.risk_contribution_pct ≤ a.risk_contribution_pct))
    (fun a b c h1 h2 => by
      simp only [decide_eq_true_eq] at *
      exact le_trans h2 h1)
    (fun a b => by
      simp only [Bool.or_eq_true, decide_eq_true_eq]
      exact le_total b.risk_contribution_pct a.risk_contribution_pct)
    positions
  simpa using h

/-! ### Removing a position (claim C9)

`removePosition` (`src/unnamed/part_010`, lines 104-106) and
`handleRemovePosition` (`src/unnamed/part_007`, lines 116-121) both compute
`positions.filter((_, i) => i !== index)`: keep exactly the elements whose
position index differs from `index`. -/

/-- `positions.filter((_, i) => i !== index)` unrolled with the running
element index `i` made explicit; `removePosition` starts it at `0`. -/
def removePositionFrom (index : ℤ) : ℤ → List α → List α
  | _, [] => []
  | i, x :: xs =>
    if i ≠ index then x :: removePositionFrom index (i + 1) xs
    else removePositionFrom index (i + 1) xs

/-- `removePosition` / `handleRemovePosition`. -/
def removePosition (index : ℤ) (positions : List α) : List α :=
  removePositionFrom index 0 positions

theorem removePositionFrom_out (index : ℤ) (l : List α) :
    ∀ i : ℤ, (index < i ∨ i + l.length ≤ index) →
    removePositionFrom index i l = l := by
  induction l with
  | nil => intro i _; rfl
  | cons x xs ih =>
    intro i h
    have hne : i ≠ index := by
      rcases h with h | h
      · exact fun he => absurd (he ▸ h) (lt_irrefl i)
      · intro he
        rw [← he] at h
        simp only [List.length_cons] at h
        push_cast at h
        linarith
    rw [removePositionFrom, if_pos hne, ih (i + 1)]
    rcases h with h | h
    · left; linarith
    · right
      simp only [List.length_cons] at h
      push_cast at h ⊢
      linarith

theorem removePositionFrom_in (index : ℤ) (l : List α) :
    ∀ i : ℤ, i ≤ index → index < i + l.length →
    removePositionFrom index i l = l.eraseIdx (index - i).toNat := by
  induction l with
  | nil =>
    intro i h1 h2
    simp only [List.length_nil, Nat.cast_zero, add_zero] at h2
    linarith
  | cons x xs ih =>
    intro i h1 h2
    by_cases he : i = index
    · rw [removePositionFrom, if_neg (by simpa using he),
        removePositionFrom_out index xs (i + 1) (Or.inl (by omega)),
        he, sub_self]
      rfl
    · have hlt : i < index := lt_of_le_of_ne h1 he
      rw [removePositionFrom, if_pos he]
      rw [ih (i + 1) (by omega)
        (by simp only [List.length_cons] at h2; push_cast at h2 ⊢; linarith)]
      have hn : (index - i).toNat = (index - (i + 1)).toNat + 1 := by omega
      rw [hn]
      rfl

/-- C9: removing the position at index `i` with `0 ≤ i < length` yields the
original list with the i-th element deleted (so the length drops by exactly
one and all other positions keep their value and relative order), and an
index outside `[0, length)` leaves the list unchanged. -/
theorem removePosition_spec (positions : List α) (index : ℤ) :
    (0 ≤ index → index < positions.length →
      removePosition index positions = positions.eraseIdx index.toNat ∧
      (removePosition index positions).length = positions.length - 1) ∧
    ((index < 0 ∨ (positions.length : ℤ) ≤ index) →
      removePosition index positions = positions) := by
  constructor
  · intro h0 hlt
    have heq : removePosition index positions =
        positions.eraseIdx index.toNat := by
      unfold removePosition
      rw [removePositionFrom_in index positions 0 h0 (by omega), sub_zero]
    refine ⟨heq, ?_⟩
    rw [heq, List.length_eraseIdx]
    have : index.toNat < positions.length := by omega
    simp [this]
  · intro h
    unfold removePosition
    exact removePositionFrom_out index positions 0 (by omega)

/-- Witness for C9: deleting index 1 from a three-element list removes
exactly the middle element; index 5 leaves the list unchanged. -/
theorem removePosition_spec_witness :
    (removePosition 1 [10, 20, 30] = ([10, 20, 30] : List ℕ).eraseIdx
        (1 : ℤ).toNat ∧
      (removePosition 1 ([10, 20, 30] : List ℕ)).length =
        ([10, 20, 30] : List ℕ).length - 1) ∧
    removePosition 5 ([10, 20, 30] : List ℕ) = [10, 20, 30] :=
  ⟨(removePosition_spec [10, 20, 30] 1).1 (by decide) (by decide),
    (removePosition_spec [10, 20, 30] 5).2 (Or.inr (by decide))⟩

/-! ### Building the position list (claims C5 and C6)

`PortfolioForm` (`src/unnamed/part_007`) adds positions typed into the form;
`ImportModal` (`src/unnamed/part_003`) builds positions from CSV rows; the
page component (`src/unnamed/part_010`) concatenates imported positions and
submits the list to `analyze`. -/

/-- `asset_class` enumeration (`src/frontend/lib/types.ts`, line 5). -/
inductive AssetClass where
  | Equity
  | Bond
  | Cash
deriving DecidableEq, Repr

/-- `PortfolioPosition` (`src/frontend/lib/types.ts`, lines 2-8).  The
`quantity` field is a JavaScript number produced by `parseFloat`; `none`
models `NaN` (a non-numeric quantity string).  `avg_price` is `undefined`
when the field was left empty (a `NaN` parse of a non-empty avg-price string
is also modelled as `none`; no claim depends on that distinction). -/
structure Position where
  ticker : String
  quantity : Option ℚ
  asset_class : AssetClass
  avg_price : Option ℚ := none
  purchase_date : Option String := none
deriving DecidableEq, Repr

/-- Digit-string value: `digitsVal ['1','2','3'] = 123`. -/
def digitsVal (cs : List Char) : ℕ :=
  cs.foldl (fun a c => 10 * a + (c.toNat - 48)) 0

/-- JavaScript `String.prototype.toUpperCase`, character by character. -/
def jsToUpper (s : String) : String :=
  ⟨s.data.map Char.toUpper⟩

/-- JavaScript `String.prototype.trim`: strip whitespace from both ends. -/
def jsTrim (s : String) : String :=
  ⟨((s.data.dropWhile Char.isWhitespace).reverse.dropWhile
      Char.isWhitespace).reverse⟩

/-- JavaScript `parseFloat`, restricted to the shapes that reach it here
(an optional sign followed by decimal digits with an optional fractional
part, as entered through the numeric form inputs or CSV cells; JS also
ignores leading whitespace and trailing garbage and accepts exponents,
which no claim exercises).  `none` models the `NaN` result: no digits could
be parsed. -/
def jsParseFloat (s : String) : Option ℚ :=
  let (neg, cs) :=
    match s.data with
    | '-' :: r => (true, r)
    | '+' :: r => (false, r)
    | cs => (false, cs)
  let ip := cs.takeWhile Char.isDigit
  let rest := cs.dropWhile Char.isDigit
  let fp :=
    match rest with
    | '.' :: r => r.takeWhile Char.isDigit
    | _ => []
  if ip.isEmpty && fp.isEmpty then none
  else
    let mag : ℚ :=
      if fp.isEmpty then (digitsVal ip : ℕ)
      else ((digitsVal ip * 10 ^ fp.length + digitsVal fp : ℕ) : ℚ) /
        ((10 ^ fp.length : ℕ) : ℚ)
    some (if neg then -mag else mag)

/-- The form state read by `handleAddPosition` (`src/unnamed/part_007`,
lines 16-30): the raw `ticker`, `quantity`, `avgPrice` and `purchaseDate`
strings, the selected asset class, `validationState.isValid`
(`null`/`true`/`false`) and `editingIndex` (`null` or an index). -/
structure FormState where
  ticker : String
  quantity : String
  assetClass : AssetClass
  avgPrice : String := ""
  purchaseDate : String := ""
  validationIsValid : Option Bool := none
  editingIndex : Option ℕ := none
deriving Repr

/-- The `newPosition` object built by `handleAddPosition`
(`src/unnamed/part_007`, lines 90-96). -/
def newPositionOfForm (st : FormState) : Position where
  ticker := jsToUpper st.ticker
  quantity := jsParseFloat st.quantity
  asset_class := st.assetClass
  avg_price := if st.avgPrice = "" then none else jsParseFloat st.avgPrice
  purchase_date := if st.purchaseDate = "" then none else some st.purchaseDate

/-- `handleAddPosition` (`src/unnamed/part_007`, lines 86-114): bail out on
an empty ticker or quantity string or on failed ticker validation; otherwise
replace the position at `editingIndex` when editing, or append the new
position.  (`updatedPositions[editingIndex] = newPosition` with the
in-bounds index the UI supplies is `List.set`.) -/
def handleAddPosition (positions : List Position) (st : FormState) :
    List Position :=
  if st.ticker = "" ∨ st.quantity = "" then positions
  else if st.validationIsValid = some false then positions
  else
    match st.editingIndex with
    | some idx => positions.set idx (newPositionOfForm st)
    | none => positions ++ [newPositionOfForm st]

/-- One parsed CSV row as `handleConfirm` reads it: the cell of the mapped
ticker column (`undefined` when the row lacks it) and the cell of the mapped
quantity column. -/
structure CsvRow where
  tickerCell : Option String
  quantityCell : String
deriving Repr

/-- The row-to-position conversion inside `handleConfirm`
(`src/unnamed/part_003`, lines 62-75): uppercase the trimmed ticker cell,
`parseFloat` the quantity cell, drop the row when the ticker is empty (or
`undefined`) or the quantity is `NaN`, default the asset class to Equity. -/
def csvRowPosition (row : CsvRow) : Option Position :=
  let ticker := ((row.tickerCell.map (fun s => jsToUpper (jsTrim s))).getD "")
  match jsParseFloat row.quantityCell with
  | none => none
  | some q =>
    if ticker = "" then none
    else some { ticker := ticker, quantity := some q,
                asset_class := AssetClass.Equity }

/-- `handleConfirm` (`src/unnamed/part_003`, lines 56-84), after the column
mapping has been fixed: convert each row, keep the non-null results, and
fail (`setError`, no import) when no valid position remains. -/
def handleConfirm (rows : List CsvRow) : Option (List Position) :=
  let positions := rows.filterMap csvRowPosition
  if positions.isEmpty then none else some positions

/-- `handleImport` (`src/unnamed/part_010`, lines 108-113): the imported
positions are appended to the existing ones. -/
def handleImport (prev imported : List Position) : List Position :=
  prev ++ imported

/-- The `analyze` request body (`src/unnamed/part_010`, lines 129-139): the
positions are mapped field-for-field into the payload. -/
def analyzePayload (positions : List Position) : List Position :=
  positions.map (fun p =>
    { ticker := p.ticker, quantity := p.quantity,
      asset_class := p.asset_class, avg_price := p.avg_price,
      purchase_date := p.purchase_date })

/-- Form state typing a zero quantity for AAPL. -/
def formAAPL0 : FormState :=
  { ticker := "AAPL", quantity := "0", assetClass := AssetClass.Equity }

/-- The zero-quantity position the form accepts. -/
def posAAPL0 : Position :=
  { ticker := "AAPL", quantity := some 0, asset_class := AssetClass.Equity }

/-- Form state typing quantity 10 for AAPL. -/
def formAAPL10 : FormState :=
  { ticker := "AAPL", quantity := "10", assetClass := AssetClass.Equity }

/-- An existing AAPL position. -/
def posAAPL5 : Position :=
  { ticker := "AAPL", quantity := some 5, asset_class := AssetClass.Equity }

/-- A second AAPL position with a different quantity. -/
def posAAPL2 : Position :=
  { ticker := "AAPL", quantity := some 2, asset_class := AssetClass.Equity }

/-- A CSV row whose ticker cell needs trimming and whose quantity is
negative. -/
def rowMSFTneg3 : CsvRow :=
  { tickerCell := some " msft ", quantityCell := "-3" }

/-- The position `rowMSFTneg3` imports as. -/
def posMSFTneg3 : Position :=
  { ticker := "MSFT", quantity := some (-3),
    asset_class := AssetClass.Equity }

/-- Counterexample to C5 as stated: the form accepts the quantity string
"0" (only the empty string is rejected by `if (!ticker || !quantity)`), so a
position with quantity 0 — not strictly greater than 0 — enters the
portfolio. -/
theorem position_positive_quantity_cex :
    handleAddPosition [] formAAPL0 = [posAAPL0] ∧
    posAAPL0.quantity = some 0 ∧ ¬(0 : ℚ) < 0 :=
  ⟨by decide, rfl, lt_irrefl 0⟩

/-- C5 amended: CSV import rejects a row only when its ticker cell is empty
or missing or its quantity cell fails to parse (`NaN`), so every imported
position has a nonempty ticker and a parsed numeric quantity — which may be
zero or negative; the form rejects only an empty ticker string, an empty
quantity string, or failed ticker validation, and otherwise appends
`parseFloat` of whatever was typed, with no positivity check. -/
theorem position_acceptance_amended :
    (∀ (rows : List CsvRow) (ps : List Position),
      handleConfirm rows = some ps →
      ∀ p ∈ ps, p.ticker ≠ "" ∧ ∃ q : ℚ, p.quantity = some q) ∧
    (∀ (positions : List Position) (st : FormState),
      st.editingIndex = none →
      ∀ p ∈ handleAddPosition positions st,
      p ∈ positions ∨
        (st.ticker ≠ "" ∧ st.quantity ≠ "" ∧
          st.validationIsValid ≠ some false ∧
          p = newPositionOfForm st)) := by
  constructor
  · intro rows ps hps p hp
    have hmem : p ∈ rows.filterMap csvRowPosition := by
      unfold handleConfirm at hps
      by_cases he : (rows.filterMap csvRowPosition).isEmpty
      · simp [he] at hps
      · simp only [he, if_neg, Bool.false_eq_true, ite_false,
          Option.some.injEq] at hps
        exact hps ▸ hp
    obtain ⟨row, _, hrow⟩ := List.mem_filterMap.mp hmem
    simp only [csvRowPosition] at hrow
    split at hrow
    · exact absurd hrow (by simp)
    · split at hrow
      · exact absurd hrow (by simp)
      · next q hq ht =>
        obtain rfl := Option.some.inj hrow
        exact ⟨ht, q, rfl⟩
  · intro positions st hedit p hp
    unfold handleAddPosition at hp
    by_cases h1 : st.ticker = "" ∨ st.quantity = ""
    · rw [if_pos h1] at hp
      exact Or.inl hp
    · rw [if_neg h1] at hp
      by_cases h2 : st.validationIsValid = some false
      · rw [if_pos h2] at hp
        exact Or.inl hp
      · rw [if_neg h2, hedit] at hp
        rcases List.mem_append.mp hp with h | h
        · exact Or.inl h
        · push_neg at h1
          exact Or.inr ⟨h1.1, h1.2, h2, by simpa using h⟩

/-- Witness for the amended C5 at concrete inputs: a CSV row with ticker
cell " msft " and quantity cell "-3" imports as a position with nonempty
ticker "MSFT" and parsed quantity; the form with ticker "AAPL" and quantity
"10" appends exactly the parsed new position. -/
theorem position_acceptance_amended_witness :
    (posMSFTneg3.ticker ≠ "" ∧ ∃ q : ℚ, posMSFTneg3.quantity = some q) ∧
    (newPositionOfForm formAAPL10 ∈ ([] : List Position) ∨
      (formAAPL10.ticker ≠ "" ∧ formAAPL10.quantity ≠ "" ∧
        formAAPL10.validationIsValid ≠ some false ∧
        newPositionOfForm formAAPL10 = newPositionOfForm formAAPL10)) :=
  ⟨position_acceptance_amended.1 [rowMSFTneg3] [posMSFTneg3] (by decide) _
      (by decide),
    position_acceptance_amended.2 [] formAAPL10 rfl _ (by decide)⟩

/-- Counterexample to C6 as stated: starting from a portfolio already
holding AAPL, adding AAPL again through the form neither rejects nor merges
— the resulting position list carries the ticker twice, and the `analyze`
payload ships it unchanged. -/
theorem duplicate_ticker_cex :
    (handleAddPosition [posAAPL5] formAAPL10).map Position.ticker =
      ["AAPL", "AAPL"] ∧
    ¬(["AAPL", "AAPL"] : List String).Nodup ∧
    (analyzePayload (handleAddPosition [posAAPL5] formAAPL10)).map
        Position.ticker = ["AAPL", "AAPL"] :=
  ⟨by decide, by decide, by decide⟩

/-- C6 amended: neither the form's add handler nor CSV import performs any
duplicate-ticker check: a (non-rejected, non-editing) add simply appends the
new position, importing concatenates the imported list, and the `analyze`
payload reproduces the position list field-for-field — so a portfolio with
two positions sharing a ticker can be formed and submitted. -/
theorem duplicate_tickers_allowed (prev imported positions : List Position)
    (st : FormState) (hticker : st.ticker ≠ "") (hqty : st.quantity ≠ "")
    (hvalid : st.validationIsValid ≠ some false)
    (hedit : st.editingIndex = none) :
    handleImport prev imported = prev ++ imported ∧
    handleAddPosition positions st = positions ++ [newPositionOfForm st] ∧
    analyzePayload positions = positions := by
  refine ⟨rfl, ?_, by simp [analyzePayload]⟩
  unfold handleAddPosition
  rw [if_neg (by tauto), if_neg hvalid, hedit]

/-- Witness for the amended C6 at concrete inputs. -/
theorem duplicate_tickers_allowed_witness :
    handleImport [posAAPL5] [posAAPL2] = [posAAPL5] ++ [posAAPL2] ∧
    handleAddPosition [posAAPL5] formAAPL10 =
      [posAAPL5] ++ [newPositionOfForm formAAPL10] ∧
    analyzePayload [posAAPL5] = [posAAPL5] :=
  duplicate_tickers_allowed [posAAPL5] [posAAPL2] [posAAPL5] formAAPL10
    (by decide) (by decide) (by decide) rfl

/-! ### Monte Carlo histogram (claim C8)

`createHistogram` (`src/unnamed/part_007`, lines 403-428, inside the
`MonteCarloVaR` component): 50 bins over `[distribution.min,
distribution.max]`; each simulation value increments the bin
`Math.min(Math.floor((sim - min) / binSize), 49)` when that index passes
the `binIndex >= 0 && binIndex < binCount` guard. -/

/-- An integer-valued JavaScript number, as produced by
`Math.floor`/`Math.min` on the bin-index computation: a finite integer,
`Infinity`, `-Infinity`, or `NaN`. -/
inductive JSInt where
  | fin (k : ℤ)
  | posInf
  | negInf
  | nan
deriving DecidableEq, Repr

/-- `Math.floor(a / b)` on JavaScript numbers: division by zero gives
`Infinity` / `-Infinity` / `NaN` (for `0 / 0`), which `Math.floor` maps to
themselves; otherwise the integer floor of the exact quotient. -/
def jsFloorDiv (a b : ℚ) : JSInt :=
  if b = 0 then
    if 0 < a then JSInt.posInf else if a < 0 then JSInt.negInf else JSInt.nan
  else JSInt.fin ⌊a / b⌋

/-- `Math.min(x, c)` on an integer-valued JavaScript number: `NaN`
propagates, `Infinity` clamps down to `c`, `-Infinity` stays. -/
def jsMinIdx (x : JSInt) (c : ℤ) : JSInt :=
  match x with
  | .fin k => .fin (min k c)
  | .posInf => .fin c
  | .negInf => .negInf
  | .nan => .nan

/-- The `binIndex` computed for one simulation value
(`src/unnamed/part_007`, line 419). -/
def binIndex (lo binSize sim : ℚ) : JSInt :=
  jsMinIdx (jsFloorDiv (sim - lo) binSize) 49

/-- The guard `binIndex >= 0 && binIndex < binCount` (line 420; JS
comparisons on `NaN` are false, so a `NaN` or `-Infinity` index never
passes) together with the array index used on success. -/
def countedBin (lo binSize sim : ℚ) : Option ℕ :=
  match binIndex lo binSize sim with
  | .fin k => if 0 ≤ k ∧ k < 50 then some k.toNat else none
  | _ => none

/-- One iteration of the `forEach` loop (lines 418-423): increment the
count of the guarded bin, leave the bins unchanged otherwise. -/
def histStep (lo binSize : ℚ) (bins : List (ℚ × ℕ)) (sim : ℚ) :
    List (ℚ × ℕ) :=
  match countedBin lo binSize sim with
  | some k => bins.set k ((bins.getD k (0, 0)).1, (bins.getD k (0, 0)).2 + 1)
  | none => bins

/-- `createHistogram` (`src/unnamed/part_007`, lines 403-428): 50 bins
centred at `min + (i + 0.5) * binSize` with zero counts, then one guarded
increment per simulation value. -/
def createHistogram (lo hi : ℚ) (sims : List ℚ) : List (ℚ × ℕ) :=
  let binSize := (hi - lo) / 50
  let init := (List.range 50).map (fun i : ℕ => (lo + ((i : ℚ) + 1/2) * binSize, 0))
  sims.foldl (histStep lo binSize) init

/-- Total count over all bins. -/
def sumCounts (bins : List (ℚ × ℕ)) : ℕ :=
  (bins.map Prod.snd).sum

theorem countedBin_lt_50 (lo binSize sim : ℚ) (k : ℕ)
    (h : countedBin lo binSize sim = some k) : k < 50 := by
  unfold countedBin at h
  split at h
  · next k' =>
    split at h
    · next hk =>
      obtain rfl := Option.some.inj h
      omega
    · exact absurd h (by simp)
  · exact absurd h (by simp)

theorem histStep_length (lo binSize : ℚ) (bins : List (ℚ × ℕ)) (sim : ℚ) :
    (histStep lo binSize bins sim).length = bins.length := by
  unfold histStep
  split <;> simp [List.length_set]

theorem sumCounts_set (bins : List (ℚ × ℕ)) :
    ∀ k : ℕ, k < bins.length →
    sumCounts (bins.set k ((bins.getD k (0, 0)).1,
      (bins.getD k (0, 0)).2 + 1)) = sumCounts bins + 1 := by
  induction bins with
  | nil => intro k hk; simp at hk
  | cons b bs ih =>
    intro k hk
    cases k with
    | zero => simp [sumCounts, List.getD]; omega
    | succ k =>
      have hk' : k < bs.length := by simpa using hk
      have := ih k hk'
      simp only [sumCounts, List.getD_cons_succ, List.set_cons_succ,
        List.map_cons, List.sum_cons] at this ⊢
      omega

theorem sumCounts_histStep (lo binSize : ℚ) (bins : List (ℚ × ℕ)) (sim : ℚ)
    (hlen : bins.length = 50) :
    sumCounts (histStep lo binSize bins sim) =
      sumCounts bins + (if (countedBin lo binSize sim).isSome then 1 else 0)
    := by
  unfold histStep
  cases h : countedBin lo binSize sim with
  | none => simp
  | some k =>
    have hk : k < bins.length := hlen ▸ countedBin_lt_50 lo binSize sim k h
    simp only [Option.isSome_some, if_true]
    exact sumCounts_set bins k hk

theorem histFold_length (lo binSize : ℚ) (sims : List ℚ) :
    ∀ bins : List (ℚ × ℕ),
    (sims.foldl (histStep lo binSize) bins).length = bins.length := by
  induction sims with
  | nil => intro bins; rfl
  | cons s ss ih =>
    intro bins
    rw [List.foldl_cons, ih, histStep_length]

theorem histFold_sumCounts (lo binSize : ℚ) (sims : List ℚ)
    (hall : ∀ s ∈ sims, (countedBin lo binSize s).isSome) :
    ∀ bins : List (ℚ × ℕ), bins.length = 50 →
    sumCounts (sims.foldl (histStep lo binSize) bins) =
      sumCounts bins + sims.length := by
  induction sims with
  | nil => intro bins _; rfl
  | cons s ss ih =>
    intro bins hlen
    rw [List.foldl_cons]
    rw [ih (fun x hx => hall x (List.mem_cons_of_mem s hx))
      (histStep lo binSize bins s) (by rw [histStep_length]; exact hlen)]
    rw [sumCounts_histStep lo binSize bins s hlen,
      if_pos (hall s (List.mem_cons_self s ss))]
    simp only [List.length_cons]
    omega

theorem countedBin_of_pos (lo binSize sim : ℚ) (hb : 0 < binSize)
    (hs : lo ≤ sim) :
    countedBin lo binSize sim = some (min ⌊(sim - lo) / binSize⌋ 49).toNat
    := by
  have hfloor : 0 ≤ ⌊(sim - lo) / binSize⌋ :=
    Int.floor_nonneg.mpr (div_nonneg (by linarith) hb.le)
  unfold countedBin binIndex jsFloorDiv jsMinIdx
  rw [if_neg (ne_of_gt hb)]
  simp only
  rw [if_pos ⟨le_min hfloor (by norm_num),
    lt_of_le_of_lt (min_le_right _ _) (by norm_num)⟩]

theorem countedBin_degenerate (lo : ℚ) :
    countedBin lo 0 lo = none := by
  unfold countedBin binIndex jsFloorDiv jsMinIdx
  norm_num

/-- C8: `createHistogram` always returns exactly 50 bins and never accesses
the bin array outside `[0, 49]` (the model's guarded index is always below
50); when `min < max`, every simulation value `s ≥ min` is counted in the
single bin `min(floor((s - min) / binSize), 49)`, so under the invariant
that all simulations lie in `[min, max]` the bin counts sum to the number
of simulations; when `min = max` (`binSize` 0), the `0 / 0 = NaN` index
fails the guard for every such value, so all 50 counts stay 0. -/
theorem createHistogram_spec (lo hi : ℚ) (sims : List ℚ)
    (hmem : ∀ s ∈ sims, lo ≤ s ∧ s ≤ hi) :
    (createHistogram lo hi sims).length = 50 ∧
    (∀ s k, countedBin lo ((hi - lo) / 50) s = some k → k < 50) ∧
    (lo < hi →
      (∀ s ∈ sims, countedBin lo ((hi - lo) / 50) s =
        some (min ⌊(s - lo) / ((hi - lo) / 50)⌋ 49).toNat) ∧
      sumCounts (createHistogram lo hi sims) = sims.length) ∧
    (lo = hi → ∀ b ∈ createHistogram lo hi sims, b.2 = 0) := by
  have hinitlen : ((List.range 50).map
      (fun i : ℕ => (lo + ((i : ℚ) + 1/2) * ((hi - lo) / 50), 0))).length = 50
    := by rw [List.length_map, List.length_range]
  refine ⟨?_, ?_, ?_, ?_⟩
  · unfold createHistogram
    rw [histFold_length]
    exact hinitlen
  · exact fun s k h => countedBin_lt_50 lo ((hi - lo) / 50) s k h
  · intro hlt
    have hb : 0 < (hi - lo) / 50 := div_pos (by linarith) (by norm_num)
    have hcount : ∀ s ∈ sims, countedBin lo ((hi - lo) / 50) s =
        some (min ⌊(s - lo) / ((hi - lo) / 50)⌋ 49).toNat :=
      fun s hs => countedBin_of_pos lo _ s hb (hmem s hs).1
    refine ⟨hcount, ?_⟩
    unfold createHistogram
    rw [histFold_sumCounts lo ((hi - lo) / 50) sims
      (fun s hs => by rw [hcount s hs]; rfl) _ hinitlen]
    have hzero : sumCounts ((List.range 50).map
        (fun i : ℕ => (lo + ((i : ℚ) + 1/2) * ((hi - lo) / 50), 0))) = 0 := by
      unfold sumCounts
      rw [List.map_map]
      have hconst : (Prod.snd ∘ fun i : ℕ =>
          (lo + ((i : ℚ) + 1/2) * ((hi - lo) / 50), (0 : ℕ))) =
          fun _ : ℕ => (0 : ℕ) := rfl
      rw [hconst, List.map_const', List.sum_replicate, smul_zero]
    omega
  · intro heq b hb
    have hid : sims.foldl (histStep lo ((hi - lo) / 50))
        ((List.range 50).map
          (fun i : ℕ => (lo + ((i : ℚ) + 1/2) * ((hi - lo) / 50), 0))) =
        (List.range 50).map
          (fun i : ℕ => (lo + ((i : ℚ) + 1/2) * ((hi - lo) / 50), 0)) := by
      have hnone : ∀ s ∈ sims, countedBin lo ((hi - lo) / 50) s = none := by
        intro s hs
        have h1 := (hmem s hs).1
        have h2 := (hmem s hs).2
        have hseq : s = lo := by rw [heq]; linarith
        have hbz : (hi - lo) / 50 = 0 := by rw [heq]; ring
        rw [hseq, hbz]
        exact countedBin_degenerate lo
      clear hmem hb
      induction sims with
      | nil => rfl
      | cons s ss ih =>
        rw [List.foldl_cons]
        have hstep : histStep lo ((hi - lo) / 50)
            ((List.range 50).map
              (fun i : ℕ => (lo + ((i : ℚ) + 1/2) * ((hi - lo) / 50), 0))) s =
            (List.range 50).map
              (fun i : ℕ => (lo + ((i : ℚ) + 1/2) * ((hi - lo) / 50), 0)) := by
          unfold histStep
          rw [hnone s (List.mem_cons_self s ss)]
        rw [hstep]
        exact ih (fun x hx => hnone x (List.mem_cons_of_mem s hx))
    unfold createHistogram at hb
    rw [hid] at hb
    obtain ⟨i, _, hbi⟩ := List.mem_map.mp hb
    rw [← hbi]

/-- Witness for C8 at concrete inputs: three simulations over `[0, 100]`
give 50 bins whose counts sum to 3, and over the degenerate range
`[5, 5]` all counts are 0. -/
theorem createHistogram_spec_witness :
    (createHistogram 0 100 [0, 50, 100]).length = 50 ∧
    sumCounts (createHistogram 0 100 [0, 50, 100]) =
      ([0, 50, 100] : List ℚ).length ∧
    ∀ b ∈ createHistogram 5 5 [5], b.2 = 0 :=
  ⟨(createHistogram_spec 0 100 [0, 50, 100] (by norm_num)).1,
    ((createHistogram_spec 0 100 [0, 50, 100] (by norm_num)).2.2.1
      (by norm_num)).2,
    (createHistogram_spec 5 5 [5] (by norm_num)).2.2.2 rfl⟩

/-! ### Performance ratios and their consumer (claim C4)

The Sharpe/Sortino computation is backend code (§4.5) absent from `src/`;
the consumer `PerformanceMetricsComponent` (`src/unnamed/part_005`) is
present and renders `data.sharpe_ratio.toFixed(2)` /
`data.sortino_ratio.toFixed(2)` with `getRatioLevel` badges. -/

/-- Modelled from the spec (§4.5): "sortino_ratio uses downside deviation:
std of only negative daily returns, annualized; ratio undefined (report as
0 or null, not NaN) when no negative returns exist."  The undefined case is
reported as `none` (the spec's null option); in the defined case the
denominator is represented by the annualized downside variance (the
deviation is its square root, irrational in general — only the
defined/undefined split matters to any claim). -/
def sortino_ratio (dailyReturns : List ℚ) (annualizedReturn rf : ℚ) :
    Option ℚ :=
  let negs := dailyReturns.filter (fun r => decide (r < 0))
  if negs.isEmpty then none
  else some ((annualizedReturn - rf) /
    (252 * ((negs.map (fun r => r * r)).sum / negs.length)))

/-- Modelled from the spec (§4.5, §8): `sharpe_ratio = (annualized_return −
risk_free_rate) / volatility_annualized`, "reported as null rather than
division-by-zero" for a zero-variance portfolio. -/
def sharpe_ratio (annualizedReturn rf volatility : ℚ) : Option ℚ :=
  if volatility = 0 then none
  else some ((annualizedReturn - rf) / volatility)

/-- `getRatioLevel` (`src/unnamed/part_005`, lines 11-21): label, text
colour and background colour for a ratio value. -/
def getRatioLevel (ratio : ℚ) : String × String × String :=
  if ratio > 3/2 then ("Excellent", "text-green-700", "bg-green-50")
  else if ratio > 1 then ("Good", "text-blue-700", "bg-blue-50")
  else if ratio > 1/2 then ("Fair", "text-yellow-700", "bg-yellow-50")
  else ("Poor", "text-red-700", "bg-red-50")

/-- The numeric content of JavaScript `x.toFixed(2)`: `x` rounded to two
decimals. -/
def toFixed2 (q : ℚ) : ℚ := (round (q * 100) : ℚ) / 100

/-- What `PerformanceMetricsComponent` (`src/unnamed/part_005`, lines
23-26 and 42-63) makes of one ratio value: `getRatioLevel(r)` and
`r.toFixed(2)`.  The field is typed `number` (`src/frontend/lib/types.ts`,
lines 29-34); on a `null` ratio the `.toFixed` call throws a `TypeError`,
modelled as `none`. -/
def renderRatio (v : Option ℚ) : Option ((String × String × String) × ℚ) :=
  match v with
  | none => none
  | some q => some (getRatioLevel q, toFixed2 q)

/-- Counterexample to C4 as stated: for the all-positive return history
`[1, 2]` the Sortino ratio is reported as null, and the consumer
`PerformanceMetricsComponent` does not accept that null — its render fails
(`null.toFixed(2)` is a `TypeError`; `PerformanceMetrics` types the field
as a non-null `number`). -/
theorem sortino_null_consumer_cex :
    sortino_ratio [1, 2] 5 2 = none ∧
    (renderRatio none).isSome = false :=
  ⟨by decide, rfl⟩

/-- C4 amended: with no negative daily return the Sortino ratio is null
(and the Sharpe ratio is null for a zero-volatility portfolio), never NaN
or a division by zero; every consumer accepts every finite ratio value —
including 0, the spec's other option for the undefined case — but a null
ratio is not accepted by the consumer, whose `toFixed` call fails on it. -/
theorem performance_ratios_amended :
    (∀ (dailyReturns : List ℚ) (annualizedReturn rf : ℚ),
      (∀ r ∈ dailyReturns, 0 ≤ r) →
      sortino_ratio dailyReturns annualizedReturn rf = none) ∧
    (∀ annualizedReturn rf : ℚ, sharpe_ratio annualizedReturn rf 0 = none) ∧
    (∀ q : ℚ, (renderRatio (some q)).isSome = true) ∧
    (renderRatio none).isSome = false := by
  refine ⟨?_, ?_, fun q => rfl, rfl⟩
  · intro dailyReturns annualizedReturn rf hnn
    have hfil : dailyReturns.filter (fun r => decide (r < 0)) = [] := by
      rw [List.filter_eq_nil_iff]
      intro r hr
      simp only [decide_eq_true_eq, not_lt]
      exact hnn r hr
    unfold sortino_ratio
    rw [hfil]
    rfl
  · intro annualizedReturn rf
    unfold sharpe_ratio
    rw [if_pos rfl]

/-- Witness for the amended C4 at concrete inputs. -/
theorem performance_ratios_amended_witness :
    sortino_ratio [1, 2] 5 2 = none ∧
    sharpe_ratio 5 2 0 = none ∧
    (renderRatio (some 0)).isSome = true :=
  ⟨performance_ratios_amended.1 [1, 2] 5 2 (by decide),
    performance_ratios_amended.2.1 5 2,
    performance_ratios_amended.2.2.1 0⟩

/-! ### Finiteness of delivered numeric results (claim C7)

The sanitization policy belongs to the backend (§7), absent from `src/`;
the frontend's own defensive guard on optimizer results is in
`EfficientFrontier.tsx` (lines 177-181 and 215-219). -/

/-- Modelled from the spec (§7): "All numeric outputs must be finite; any
NaN/Infinity must be caught and converted to an explicit null with a
reported reason, never leaked to the caller as NaN."  A raw computed value
is delivered either as its finite rational or as an explicit null carrying
the reason. -/
def sanitizeNum (x : JSNum) : Except String ℚ :=
  match x with
  | .fin q => .ok q
  | .nan => .error "NaN"
  | .posInf => .error "Infinity"
  | .negInf => .error "-Infinity"

/-- Modelled from the spec (§7): sanitization applied to every numeric
field of a result record (`RiskOutput` / `OptimizationResult`), keyed by
field name. -/
def sanitizeFields (fields : List (String × JSNum)) :
    List (String × Except String ℚ) :=
  fields.map (fun nv => (nv.1, sanitizeNum nv.2))

/-- The frontend guard on the optimal-portfolio returns
(`src/frontend/components/EfficientFrontier.tsx`, lines 177-181 and
215-219): `Number.isFinite(x) ? formatPercent(x) : '-'` — the displayed
percent value when finite, the placeholder dash (`none`) otherwise. -/
def displayOptReturn (x : JSNum) : Option ℚ :=
  match x with
  | .fin q => some (formatPercentValue q)
  | _ => none

/-- C7: a sanitized field is delivered as a finite value only when the raw
value was that finite number (NaN/Infinity can never surface as a numeric
value); every non-finite raw value is converted to an explicit error with
its reason; a delivered finite field traces back to a finite raw field of
the same name; and the frontend's own guard displays a value exactly for
finite returns. -/
theorem sanitized_outputs_finite :
    (∀ (x : JSNum) (q : ℚ), sanitizeNum x = Except.ok q → x = JSNum.fin q) ∧
    (∀ x : JSNum, x.isFinite = false →
      ∃ reason : String, sanitizeNum x = Except.error reason) ∧
    (∀ (fields : List (String × JSNum)) (nv : String × Except String ℚ),
      nv ∈ sanitizeFields fields → ∀ q : ℚ, nv.2 = Except.ok q →
      (nv.1, JSNum.fin q) ∈ fields) ∧
    (∀ x : JSNum, displayOptReturn x = none ↔ x.isFinite = false) := by
  refine ⟨?_, ?_, ?_, ?_⟩
  · intro x q h
    cases x with
    | fin r => exact congrArg JSNum.fin (Except.ok.inj h)
    | posInf => exact absurd h (by simp [sanitizeNum])
    | negInf => exact absurd h (by simp [sanitizeNum])
    | nan => exact absurd h (by simp [sanitizeNum])
  · intro x hx
    cases x with
    | fin r => simp [JSNum.isFinite] at hx
    | posInf => exact ⟨"Infinity", rfl⟩
    | negInf => exact ⟨"-Infinity", rfl⟩
    | nan => exact ⟨"NaN", rfl⟩
  · intro fields nv hnv q hq
    obtain ⟨raw, hraw, hmap⟩ := List.mem_map.mp hnv
    have h1 : nv.1 = raw.1 := by rw [← hmap]
    have h2 : sanitizeNum raw.2 = Except.ok q := by rw [← hq, ← hmap]
    have : raw.2 = JSNum.fin q := by
      cases hr : raw.2 with
      | fin r =>
        rw [hr] at h2
        exact congrArg JSNum.fin (Except.ok.inj h2)
      | posInf => rw [hr] at h2; exact absurd h2 (by simp [sanitizeNum])
      | negInf => rw [hr] at h2; exact absurd h2 (by simp [sanitizeNum])
      | nan => rw [hr] at h2; exact absurd h2 (by simp [sanitizeNum])
    rw [h1, ← this]
    exact hraw
  · intro x
    cases x with
    | fin r => simp [displayOptReturn, JSNum.isFinite]
    | posInf => simp [displayOptReturn, JSNum.isFinite]
    | negInf => simp [displayOptReturn, JSNum.isFinite]
    | nan => simp [displayOptReturn, JSNum.isFinite]

/-- Witness for C7 at concrete inputs: a finite raw value 3 survives
 sanitization as itself; raw `NaN` becomes an explicit reason; the
delivered `ret` field of a mixed record traces back to the finite raw
field; the frontend guard hides a non-finite return. -/
theorem sanitized_outputs_finite_witness :
    JSNum.nan = JSNum.fin 3 ∨
    ((∃ reason : String, sanitizeNum JSNum.nan = Except.error reason) ∧
      ("ret", JSNum.fin 2) ∈
        [("vol", JSNum.nan), ("ret", JSNum.fin 2)] ∧
      (displayOptReturn JSNum.nan = none ↔ JSNum.nan.isFinite = false)) :=
  Or.inr ⟨sanitized_outputs_finite.2.1 JSNum.nan rfl,
    sanitized_outputs_finite.2.2.1 [("vol", JSNum.nan), ("ret", JSNum.fin 2)]
      ("ret", Except.ok 2)
      (List.mem_cons_of_mem _ (List.mem_cons_self _ _)) 2 rfl,
    (sanitized_outputs_finite.2.2.2 JSNum.nan)⟩

/-! ### Optimizer weights (claim C2)

The optimizer (§4.9) is backend code absent from `src/`; the frontend only
declares `OptimalPortfolio` (`src/frontend/lib/types.ts`, lines 133-138)
and consumes `max_sharpe_portfolio` / `min_vol_portfolio` in
`EfficientFrontier.tsx`.  The selection below is modelled from the spec:
both optimal portfolios are chosen from the long-only, fully-invested
feasible set `w ≥ 0, Σw = 1`. -/

/-- Dot product of two weight/return vectors. -/
def dot (xs ys : List ℚ) : ℚ :=
  ((xs.zip ys).map (fun p => p.1 * p.2)).sum

/-- Matrix-vector product, rows as lists. -/
def matVec (m : List (List ℚ)) (v : List ℚ) : List ℚ :=
  m.map (fun row => dot row v)

/-- The quadratic form `wᵗ Σ w` (the portfolio variance). -/
def quadForm (m : List (List ℚ)) (w : List ℚ) : ℚ :=
  dot w (matVec m w)

/-- Modelled from the spec (§4.9): the feasible set of the optimizer —
weights over the portfolio's assets (one per ticker) that are long-only
(`w ≥ 0`) and fully invested (`Σw = 1`). -/
def feasibleWeights (n : ℕ) (w : List ℚ) : Bool :=
  w.length == n && w.all (fun x => decide (0 ≤ x)) && decide (w.sum = 1)

/-- Select the element with the best score from a candidate list: `better x
y` means the new candidate `x` beats the current best `y`. -/
def pickBy (better : α → α → Bool) : List α → Option α :=
  List.foldl
    (fun acc x =>
      match acc with
      | none => some x
      | some y => if better x y then some x else some y)
    none

/-- Argmax of a rational score over a list. -/
def argmaxBy (f : α → ℚ) : List α → Option α :=
  pickBy (fun x y => decide (f y < f x))

/-- Argmin of a rational score over a list. -/
def argminBy (f : α → ℚ) : List α → Option α :=
  pickBy (fun x y => decide (f x < f y))

/-- `OptimalPortfolio` (`src/frontend/lib/types.ts`, lines 133-138) with
the weights mapping as ticker-keyed pairs; `ret` is the `return` field
(`return` is reserved in Lean) and `variance` stands for the volatility
entry (volatility is `√variance`, irrational in general; the monotone
square does not change which portfolio is selected, and no claim depends
on the reported magnitude). -/
structure OptimalPortfolio where
  weights : List (String × ℚ)
  ret : ℚ
  variance : ℚ
deriving Repr

/-- Modelled from the spec (§4.9): `max_sharpe_portfolio = argmax (wᵗμ −
r_f)/√(wᵗΣw)` over the feasible set, scanned over a candidate grid.  The
score is represented with the variance in the denominator (no rational
square root); only the feasible set matters to claim C2. -/
def maxSharpePortfolio (tickers : List String) (mu : List ℚ)
    (cov : List (List ℚ)) (rf : ℚ) (cands : List (List ℚ)) :
    Option OptimalPortfolio :=
  (argmaxBy (fun w => (dot w mu - rf) / quadForm cov w)
      (cands.filter (feasibleWeights tickers.length))).map
    (fun w => { weights := tickers.zip w, ret := dot w mu,
                variance := quadForm cov w })

/-- Modelled from the spec (§4.9): `min_vol_portfolio` is the global
minimum-variance point of the same feasible set. -/
def minVolPortfolio (tickers : List String) (mu : List ℚ)
    (cov : List (List ℚ)) (cands : List (List ℚ)) :
    Option OptimalPortfolio :=
  (argminBy (fun w => quadForm cov w)
      (cands.filter (feasibleWeights tickers.length))).map
    (fun w => { weights := tickers.zip w, ret := dot w mu,
                variance := quadForm cov w })

theorem pickBy_mem (better : α → α → Bool) (l : List α) (x : α)
    (h : pickBy better l = some x) : x ∈ l := by
  suffices haux : ∀ (l : List α) (acc : Option α),
      List.foldl
        (fun acc x =>
          match acc with
          | none => some x
          | some y => if better x y then some x else some y)
        acc l = some x → acc = some x ∨ x ∈ l by
    rcases haux l none h with h' | h'
    · exact absurd h' (by simp)
    · exact h'
  intro l
  induction l with
  | nil =>
    intro acc hacc
    exact Or.inl hacc
  | cons y ys ih =>
    intro acc hacc
    rw [List.foldl_cons] at hacc
    rcases ih _ hacc with h' | h'
    · cases acc with
      | none =>
        simp only [Option.some.injEq] at h'
        exact Or.inr (h' ▸ List.mem_cons_self y ys)
      | some z =>
        by_cases hb : better y z
        · simp only [hb, if_true, Option.some.injEq] at h'
          exact Or.inr (h' ▸ List.mem_cons_self y ys)
        · simp only [hb, if_false, Bool.false_eq_true] at h'
          exact Or.inl h'
    · exact Or.inr (List.mem_cons_of_mem y h')

/-- C2: any portfolio returned as `max_sharpe_portfolio` or
`min_vol_portfolio` has every weight in its weights mapping `≥ 0`, and the
weights sum to 1 — in particular within the stated `1e-6` tolerance. -/
theorem optimalPortfolio_weights (tickers : List String) (mu : List ℚ)
    (cov : List (List ℚ)) (rf : ℚ) (cands : List (List ℚ))
    (p : OptimalPortfolio)
    (hp : maxSharpePortfolio tickers mu cov rf cands = some p ∨
      minVolPortfolio tickers mu cov cands = some p) :
    (∀ e ∈ p.weights, 0 ≤ e.2) ∧
    (p.weights.map Prod.snd).sum = 1 ∧
    |(p.weights.map Prod.snd).sum - 1| ≤ 1 / 1000000 := by
  have hcase : ∃ w : List ℚ,
      w ∈ cands.filter (feasibleWeights tickers.length) ∧
      p.weights = tickers.zip w := by
    rcases hp with h | h
    · unfold maxSharpePortfolio at h
      obtain ⟨w, hw, hwp⟩ := Option.map_eq_some'.mp h
      exact ⟨w, pickBy_mem _ _ _ hw, by rw [← hwp]⟩
    · unfold minVolPortfolio at h
      obtain ⟨w, hw, hwp⟩ := Option.map_eq_some'.mp h
      exact ⟨w, pickBy_mem _ _ _ hw, by rw [← hwp]⟩
  obtain ⟨w, hwmem, hweq⟩ := hcase
  have hfeas : feasibleWeights tickers.length w = true :=
    List.of_mem_filter hwmem
  unfold feasibleWeights at hfeas
  simp only [Bool.and_eq_true, beq_iff_eq, List.all_eq_true,
    decide_eq_true_eq] at hfeas
  obtain ⟨⟨hlen, hnn⟩, hsum⟩ := hfeas
  have hmap : p.weights.map Prod.snd = w := by
    rw [hweq]
    exact List.map_snd_zip tickers w (le_of_eq hlen)
  refine ⟨?_, ?_, ?_⟩
  · intro e he
    obtain ⟨a, b⟩ := e
    rw [hweq] at he
    exact hnn b (List.of_mem_zip he).2
  · rw [hmap, hsum]
  · rw [hmap, hsum]
    norm_num

/-- The single-asset optimal portfolio returned on the candidate grid
`[[1]]`. -/
def optPortfolioEx : OptimalPortfolio :=
  { weights := [("A", 1)], ret := dot [1] [1],
    variance := quadForm [[1]] [1] }

/-- Witness for C2 at a concrete input: on the one-asset universe with
candidate grid `[[1]]`, the returned max-Sharpe portfolio has nonnegative
weights summing to 1. -/
theorem optimalPortfolio_weights_witness :
    (∀ e ∈ optPortfolioEx.weights, 0 ≤ e.2) ∧
    (optPortfolioEx.weights.map Prod.snd).sum = 1 ∧
    |(optPortfolioEx.weights.map Prod.snd).sum - 1| ≤ 1 / 1000000 :=
  optimalPortfolio_weights ["A"] [1] [[1]] 0 [[1]] optPortfolioEx
    (Or.inl (by
      simp [maxSharpePortfolio, argmaxBy, pickBy, feasibleWeights,
        optPortfolioEx]))

end RiskLens
